import Mathlib

/-!
Verification development for the gpui rendering/text slice: a shallow
embedding of `src/text_system/parley_text_system.rs`,
`src/platform/web/renderer.rs` and `src/platform/web/window.rs`.

Modelling conventions:
* Rust `i32`/`usize` become `Int`/`Nat`; `f32` values become `ℚ` (exact
  rationals standing for the float computations the claims depend on —
  none of the claims concern rounding of float arithmetic itself).
* Calls into external crates (skrifa, swash, parley, fontique, wgpu) are
  oracle inputs: the value the library returned is passed to the embedded
  function as an argument, and the embedded function reproduces what the
  Rust code does with that value.
* Fallible Rust functions returning `anyhow::Result` become `Except String`.
-/

namespace Gpui

/-- `DevicePixels(i32)`: an integer pixel count. -/
abbrev DevicePixels := Int

/-- `Point<DevicePixels>`. -/
structure PointI where
  x : Int
  y : Int
deriving DecidableEq

/-- `Size<DevicePixels>`. -/
structure SizeI where
  width : Int
  height : Int
deriving DecidableEq

/-- `Bounds<DevicePixels>`. -/
structure BoundsI where
  origin : PointI
  size : SizeI
deriving DecidableEq

/-- `Bounds::default()`: zero origin and zero size. -/
def BoundsI.default : BoundsI := ⟨⟨0, 0⟩, ⟨0, 0⟩⟩

/-- Floor of a rational (models `f32::floor` on the exactly-represented value). -/
def ratFloor (q : ℚ) : Int := Int.fdiv q.num q.den

/-- Ceiling of a rational (models `f32::ceil`). -/
def ratCeil (q : ℚ) : Int := -(ratFloor (-q))

/-- The rectangle skrifa's `GlyphMetrics::bounds` reports for a glyph
(scaled to the requested font size), in font units: oracle input. -/
structure RectQ where
  x_min : ℚ
  y_min : ℚ
  x_max : ℚ
  y_max : ℚ
deriving DecidableEq

/-- `ParleyTextSystem::glyph_raster_bounds`, lines 175–201.
`fontRefOk` models whether `LoadedFont::font_ref()` succeeded; `boundsOpt`
is the oracle result of `glyph_metrics.bounds(glyph)` (`none` for a glyph
with no outline, e.g. zero contours). -/
def glyph_raster_bounds (fontRefOk : Bool) (boundsOpt : Option RectQ) :
    Except String BoundsI :=
  if fontRefOk = false then Except.error "failed to create font reference"
  else
    match boundsOpt with
    | some rect =>
        Except.ok
          { origin := ⟨ratFloor rect.x_min, ratFloor (-rect.y_max)⟩,
            size := ⟨ratCeil rect.x_max - ratFloor rect.x_min,
                     ratCeil rect.y_max - ratFloor rect.y_min⟩ }
    | none => Except.ok BoundsI.default

/-- `Point<u8>` subpixel variant of `RenderGlyphParams`. -/
structure SubpixelVariant where
  x : Nat
  y : Nat
deriving DecidableEq

/-- `RenderGlyphParams` (the fields `rasterize_glyph` reads). -/
structure RenderGlyphParamsM where
  font_id : Nat
  glyph_id : Nat
  font_size : ℚ
  subpixel_variant : SubpixelVariant
  scale_factor : ℚ
  is_emoji : Bool
deriving DecidableEq

/-- The image swash's `Render::render` returned: placement size and raw
bytes. Oracle input (`none` when swash produced no image). -/
structure ImageM where
  placement_width : Nat
  placement_height : Nat
  data : List Nat
deriving DecidableEq

/-- `ParleyTextSystem::rasterize_glyph`, lines 203–282.
`convertEmoji` stands for the per-4-byte-chunk `swap_rgba_pa_to_bgra`
conversion (its body lives outside the staged files); `swashRefOk` models
whether `swash::FontRef::from_index` succeeded; `image` is the oracle
result of the swash render call. -/
def rasterize_glyph (convertEmoji : List Nat → List Nat)
    (params : RenderGlyphParamsM) (raster_bounds : BoundsI)
    (swashRefOk : Bool) (image : Option ImageM) :
    Except String (SizeI × List Nat) :=
  if raster_bounds.size.width = 0 ∨ raster_bounds.size.height = 0 then
    Except.error "glyph bounds are empty"
  else
    -- Add an extra pixel when the subpixel variant is non-zero
    let bitmap_size : SizeI :=
      ⟨raster_bounds.size.width + (if params.subpixel_variant.x > 0 then 1 else 0),
       raster_bounds.size.height + (if params.subpixel_variant.y > 0 then 1 else 0)⟩
    if swashRefOk = false then Except.error "failed to create swash font ref"
    else
      match image with
      | some img =>
          let bytes := if params.is_emoji then convertEmoji img.data else img.data
          Except.ok (⟨(img.placement_width : Int), (img.placement_height : Int)⟩, bytes)
      | none =>
          let byte_count :=
            if params.is_emoji then
              bitmap_size.width.toNat * 4 * bitmap_size.height.toNat
            else
              bitmap_size.width.toNat * bitmap_size.height.toNat
          Except.ok (bitmap_size, List.replicate byte_count 0)

/-! ## Font resolver (`font_id` / `resolve_font`, lines 89–97 and 433–503) -/

/-- `FontStyle`. -/
inductive FontStyle where
  | Normal
  | Italic
  | Oblique
deriving DecidableEq

/-- The `Font` descriptor used as the cache key. -/
structure Font where
  family : String
  weight : Nat
  style : FontStyle
deriving DecidableEq

/-- `FontId(usize)`: an index into the loaded-font table. -/
abbrev FontId := Nat

/-- The skrifa font metrics a loaded face reports (oracle data). -/
structure MetricsQ where
  units_per_em : ℚ
  ascent : ℚ
  descent : ℚ
deriving DecidableEq

/-- `LoadedFont`. `data_ptr`/`data_len` model the `Arc<Vec<u8>>` buffer's
pointer identity and length (used by `run_font_id_from_parley`);
`metrics` is `some` exactly when `font_ref()` succeeds, carrying the
metrics that face reports. -/
structure LoadedFont where
  data_ptr : Nat
  data_len : Nat
  font_index : Nat
  is_emoji : Bool
  family_name : String
  metrics : Option MetricsQ
deriving DecidableEq

/-- What the fontique query's first match supplies (oracle input):
the copied font bytes' identity, the face index, and what the skrifa
checks on those bytes find. -/
structure QueryFontM where
  data_ptr : Nat
  data_len : Nat
  font_index : Nat
  has_m_glyph : Bool
  is_emoji : Bool
  metrics : Option MetricsQ
deriving DecidableEq

/-- The `LoadedFont` built from a query match in `resolve_font`. -/
def toLoadedFont (qf : QueryFontM) (family_name : String) : LoadedFont :=
  { data_ptr := qf.data_ptr, data_len := qf.data_len,
    font_index := qf.font_index, is_emoji := qf.is_emoji,
    family_name := family_name, metrics := qf.metrics }

/-- `a` starts with `needle` (character by character). -/
def leadsWith : List Char → List Char → Bool
  | [], _ => true
  | _ :: _, [] => false
  | a :: as, b :: bs => a = b && leadsWith as bs

/-- `needle` occurs somewhere in `hay`. -/
def hasSub (needle : List Char) : List Char → Bool
  | [] => leadsWith needle []
  | c :: rest => leadsWith needle (c :: rest) || hasSub needle rest

/-- Rust `str::contains(needle)`. -/
def strContains (hay needle : String) : Bool := hasSub needle.data hay.data

/-- The mutable text-system state the claims concern: the loaded-font
table and the `Font → FontId` cache (`ParleyTextSystemState.fonts` /
`.font_selections`; the parley contexts only feed the oracles). -/
structure TSState where
  fonts : List LoadedFont
  font_selections : List (Font × FontId)
deriving DecidableEq

/-- `HashMap::get` on the `Font → FontId` cache. -/
def selectionLookup : List (Font × FontId) → Font → Option FontId
  | [], _ => none
  | (g, i) :: rest, f => if g = f then some i else selectionLookup rest f

/-- `ParleyTextSystemState::resolve_font`, lines 433–503.
`family_name` is the result of `font_name_with_fallbacks` (defined outside
the staged files, treated as an oracle input); `q` is the first match the
fontique query produced (`none` when no face matched). -/
def resolve_font (s : TSState) (font : Font) (family_name : String)
    (q : Option QueryFontM) : Except String FontId × TSState :=
  match q with
  | some qf =>
      -- Exception for icon fonts like Segoe Fluent Icons
      let is_icon_font := strContains family_name "Icons" || strContains family_name "Symbol"
      if !qf.has_m_glyph && !is_icon_font then
        (Except.error ("font " ++ family_name ++ " has no m character and was not loaded"), s)
      else
        let font_id : FontId := s.fonts.length
        (Except.ok font_id,
         { fonts := s.fonts ++ [toLoadedFont qf family_name],
           font_selections := (font, font_id) :: s.font_selections })
  | none => (Except.error ("could not find font family " ++ font.family), s)

/-- `ParleyTextSystem::font_id`, lines 89–97: consult the cache, else
resolve (the lock upgrade is invisible to this sequential model). -/
def font_id (s : TSState) (font : Font) (family_name : String)
    (q : Option QueryFontM) : Except String FontId × TSState :=
  match selectionLookup s.font_selections font with
  | some i => (Except.ok i, s)
  | none => resolve_font s font family_name q

/-! ## Text shaper (`layout_line`, lines 284–405, and
`run_font_id_from_parley`, lines 407–430) -/

/-- `FontRun`: a byte length and the font for that span. -/
structure FontRun where
  len : Nat
  font_id : FontId
deriving DecidableEq

/-- The identity of the font data parley reports for a glyph run
(`parley::FontData`): buffer pointer, buffer length, face index. -/
structure PFontData where
  data_ptr : Nat
  data_len : Nat
  index : Nat
deriving DecidableEq

/-- One glyph as parley reports it inside a cluster. -/
structure PGlyph where
  id : Nat
  x : ℚ
  y : ℚ
  advance : ℚ
deriving DecidableEq

/-- One visual cluster of a parley run: its text range start and glyphs. -/
structure PCluster where
  text_start : Nat
  glyphs : List PGlyph
deriving DecidableEq

/-- One positioned glyph run of the parley layout (oracle input: the
flattened `lines()`/`items()` iteration of the built layout). -/
structure PGlyphRun where
  font : PFontData
  offset : ℚ
  clusters : List PCluster
deriving DecidableEq

/-- `ShapedGlyph`. -/
structure ShapedGlyph where
  id : Nat
  x : ℚ
  y : ℚ
  index : Nat
  is_emoji : Bool
deriving DecidableEq

/-- `ShapedRun`. -/
structure ShapedRun where
  font_id : FontId
  glyphs : List ShapedGlyph
deriving DecidableEq

/-- `LineLayout`. -/
structure LineLayout where
  font_size : ℚ
  width : ℚ
  ascent : ℚ
  descent : ℚ
  runs : List ShapedRun
  len : Nat
deriving DecidableEq

/-- `run_font_id_from_parley`: match the parley font data back to a
loaded font by (index, length, pointer), else fall back to the first
input run's id, else `FontId(0)`. -/
def run_font_id_from_parley (parley_font : PFontData)
    (font_runs : List FontRun) (loaded_fonts : List LoadedFont) : FontId :=
  match loaded_fonts.findIdx? (fun loaded =>
      loaded.font_index == parley_font.index
        && loaded.data_len == parley_font.data_len
        && loaded.data_ptr == parley_font.data_ptr) with
  | some idx => idx
  | none => (font_runs.head?.map FontRun.font_id).getD 0

/-- The cluster walk of `layout_line` (lines 364–382): accumulate pen
position from cluster advances, recording each glyph and the running
`total_width` maximum. Returns the glyphs and the updated width. -/
def walkClusters (is_emoji : Bool) :
    ℚ → ℚ → List PCluster → List ShapedGlyph × ℚ
  | _, total_width, [] => ([], total_width)
  | glyph_x, total_width, c :: rest =>
      let gs := c.glyphs.map fun g =>
        ShapedGlyph.mk g.id (glyph_x + g.x) g.y c.text_start is_emoji
      let w := c.glyphs.foldl (fun acc g => max acc (glyph_x + g.x + g.advance)) total_width
      let glyph_x' := glyph_x + (c.glyphs.map PGlyph.advance).sum
      let rest' := walkClusters is_emoji glyph_x' w rest
      (gs ++ rest'.1, rest'.2)

/-- The run-extraction loop of `layout_line` (lines 351–394): one
`ShapedRun` per parley glyph run, merged into the previous run when the
recovered `FontId` matches. The accumulator holds the runs built so far
in reverse (its head is the source's `shaped_runs.last_mut()`). -/
def extractRuns (font_runs : List FontRun) (fonts : List LoadedFont) :
    List PGlyphRun → List ShapedRun → ℚ → List ShapedRun × ℚ
  | [], acc, total_width => (acc.reverse, total_width)
  | gr :: rest, [], total_width =>
      let fid := run_font_id_from_parley gr.font font_runs fonts
      let ie := match fonts[fid]? with
        | some f => f.is_emoji
        | none => false
      let gw := walkClusters ie gr.offset total_width gr.clusters
      extractRuns font_runs fonts rest [⟨fid, gw.1⟩] gw.2
  | gr :: rest, last :: tail, total_width =>
      let fid := run_font_id_from_parley gr.font font_runs fonts
      let ie := match fonts[fid]? with
        | some f => f.is_emoji
        | none => false
      let gw := walkClusters ie gr.offset total_width gr.clusters
      if last.font_id = fid then
        extractRuns font_runs fonts rest
          ({ last with glyphs := last.glyphs ++ gw.1 } :: tail) gw.2
      else
        extractRuns font_runs fonts rest (⟨fid, gw.1⟩ :: last :: tail) gw.2

/-- `ParleyTextSystem::layout_line`, lines 284–405. `text` is the byte
list of the UTF-8 input; `parley_runs` is the oracle shaping result (the
builder construction of lines 311–348 only feeds parley). The Rust code
indexes `state.fonts[run.font_id.0]` when computing ascent/descent —
a panic for an out-of-range id — which this model reads as `fonts[·]?`,
skipping ids outside the table (theorems restrict to in-range ids). -/
def layout_line (text : List Nat) (font_size : ℚ) (font_runs : List FontRun)
    (fonts : List LoadedFont) (parley_runs : List PGlyphRun) : LineLayout :=
  if text = [] ∨ font_runs = [] then
    { font_size := font_size, width := 0, ascent := 0, descent := 0,
      runs := [], len := text.length }
  else
    let ad := font_runs.foldl (fun (p : ℚ × ℚ) run =>
      match fonts[run.font_id]? >>= LoadedFont.metrics with
      | some m =>
          let font_scale := font_size / m.units_per_em
          (max p.1 (m.ascent * font_scale), max p.2 (-m.descent * font_scale))
      | none => p) (0, 0)
    let shaped := extractRuns font_runs fonts parley_runs [] 0
    { font_size := font_size, width := shaped.2, ascent := ad.1, descent := ad.2,
      runs := shaped.1, len := text.length }

/-! ## Web atlas (`WebAtlas`, `src/platform/web/window.rs` lines 248–309) -/

/-- `AtlasTextureKind`. -/
inductive AtlasTextureKind where
  | Monochrome
  | Polychrome
deriving DecidableEq

/-- `AtlasTextureId`. -/
structure AtlasTextureId where
  index : Nat
  kind : AtlasTextureKind
deriving DecidableEq

/-- `TileId(u32)`. -/
structure TileId where
  val : Nat
deriving DecidableEq

/-- `AtlasTile`. -/
structure AtlasTile where
  texture_id : AtlasTextureId
  tile_id : TileId
  padding : Nat
  bounds : BoundsI
deriving DecidableEq

/-- `AtlasKey` is opaque to the web atlas (only hashed/compared). -/
abbrev AtlasKey := Nat

/-- `WebAtlasState`. -/
structure WebAtlasState where
  next_id : Nat
  tiles : List (AtlasKey × AtlasTile)
deriving DecidableEq

/-- `WebAtlas::new()`. -/
def WebAtlasState.new : WebAtlasState := ⟨0, []⟩

/-- `HashMap::get` on the tile map. -/
def lookupTile : List (AtlasKey × AtlasTile) → AtlasKey → Option AtlasTile
  | [], _ => none
  | (k, t) :: rest, key => if k = key then some t else lookupTile rest key

/-- `WebAtlas::get_or_insert_with`, lines 267–304. `build` is the value
the `build` callback returned (oracle input; the call happens outside the
lock). The third component records whether `build` was invoked. -/
def get_or_insert_with (s : WebAtlasState) (key : AtlasKey)
    (build : Except String (Option (SizeI × List Nat))) :
    Except String (Option AtlasTile) × WebAtlasState × Bool :=
  match lookupTile s.tiles key with
  | some tile => (Except.ok (some tile), s, false)
  | none =>
      match build with
      | Except.error e => (Except.error e, s, true)
      | Except.ok none => (Except.ok none, s, true)
      | Except.ok (some (sz, _bytes)) =>
          let texture_id := s.next_id + 1
          let tile_id := s.next_id + 2
          let tile : AtlasTile :=
            { texture_id := ⟨texture_id, AtlasTextureKind.Monochrome⟩,
              tile_id := ⟨tile_id⟩,
              padding := 0,
              bounds := { origin := ⟨0, 0⟩, size := sz } }
          (Except.ok (some tile), ⟨tile_id, (key, tile) :: s.tiles⟩, true)

/-- `WebAtlas::remove`, lines 306–308. -/
def removeTile (s : WebAtlasState) (key : AtlasKey) : WebAtlasState :=
  { s with tiles := s.tiles.filter fun kv => kv.1 != key }

/-- One externally-driven atlas call. -/
inductive AtlasOp where
  | get (key : AtlasKey) (build : Except String (Option (SizeI × List Nat)))
  | remove (key : AtlasKey)

/-- Run one atlas call, also reporting the tile this call newly created
(`none` for cache hits, failures, empty builds and removals). -/
def stepAtlas (s : WebAtlasState) : AtlasOp → WebAtlasState × Option AtlasTile
  | AtlasOp.get key build =>
      let r := get_or_insert_with s key build
      (r.2.1,
        match r.2.2, r.1 with
        | true, Except.ok (some t) => some t
        | _, _ => none)
  | AtlasOp.remove key => (removeTile s key, none)

/-- Run a sequence of atlas calls, collecting every newly created tile. -/
def runAtlas (s : WebAtlasState) : List AtlasOp → WebAtlasState × List AtlasTile
  | [] => (s, [])
  | op :: rest =>
      let sc := stepAtlas s op
      let rc := runAtlas sc.1 rest
      (rc.1, sc.2.toList ++ rc.2)

/-! ## Path compositing (`WgpuRenderer::draw_paths`,
`src/platform/web/renderer.rs` lines 434–573) -/

/-- `Point<ScaledPixels>`-style rational point. -/
structure PointQ where
  x : ℚ
  y : ℚ
deriving DecidableEq

/-- Rational size. -/
structure SizeQ where
  width : ℚ
  height : ℚ
deriving DecidableEq

/-- Rational bounds. -/
structure BoundsQ where
  origin : PointQ
  size : SizeQ
deriving DecidableEq

/-- Modelled from the spec: `Bounds::union` (defined in the gpui_core
geometry module, which is not among the staged files) — "the single
bounding rect spanning all paths' bounds": smallest rectangle containing
both. -/
def BoundsQ.union (a b : BoundsQ) : BoundsQ :=
  let x0 := min a.origin.x b.origin.x
  let y0 := min a.origin.y b.origin.y
  let x1 := max (a.origin.x + a.size.width) (b.origin.x + b.size.width)
  let y1 := max (a.origin.y + a.size.height) (b.origin.y + b.size.height)
  ⟨⟨x0, y0⟩, ⟨x1 - x0, y1 - y0⟩⟩

/-- A path vertex (`xy_position`, `st_position`). -/
structure PathVertexM where
  xy : PointQ
  st : PointQ
deriving DecidableEq

/-- An RGBA color; `hsla_to_rgba(path.color.solid)` is absorbed into this
field since `Hsla::to_rgb` lives outside the staged files. -/
structure RGBA where
  r : ℚ
  g : ℚ
  b : ℚ
  a : ℚ
deriving DecidableEq

/-- A `Path<ScaledPixels>` as `draw_paths` consumes it: paint order,
triangulated vertices, solid color, and the result of
`Path::clipped_bounds()` (computed outside the staged files). -/
structure PathM where
  order : Nat
  vertices : List PathVertexM
  color : RGBA
  clipped_bounds : BoundsQ
deriving DecidableEq

/-- `GpuPathVertex`. -/
structure GpuPathVertexM where
  xy_position : PointQ
  st_position : PointQ
  color : RGBA
  clip_origin : PointQ
  clip_size : SizeQ
deriving DecidableEq

/-- `GpuPathSprite`. -/
structure GpuPathSprite where
  bounds_origin : PointQ
  bounds_size : SizeQ
deriving DecidableEq

/-- The flattened vertex buffer of pass 1 (lines 450–467). -/
def pathVertices (paths : List PathM) : List GpuPathVertexM :=
  (paths.map fun p => p.vertices.map fun v =>
    GpuPathVertexM.mk v.xy v.st p.color p.clipped_bounds.origin p.clipped_bounds.size).flatten

/-- The fold of line 514–517: the rect spanning every path's clipped
bounds. -/
def spanningBounds (first : PathM) (rest : List PathM) : BoundsQ :=
  rest.foldl (fun b p => b.union p.clipped_bounds) first.clipped_bounds

/-- The sprite instances the composite pass (pass 2) draws, lines
442–471 and 501–522: `none` when `draw_paths` returns before compositing
(empty batch, or no vertices at all); otherwise per-path sprites when the
first and last paths' orders agree, else one spanning sprite. -/
def draw_paths_sprites (paths : List PathM) : Option (List GpuPathSprite) :=
  match paths with
  | [] => none
  | first :: rest =>
      if pathVertices (first :: rest) = [] then none
      else some (
        if (first :: rest).getLast?.map PathM.order = some first.order then
          (first :: rest).map fun p =>
            GpuPathSprite.mk p.clipped_bounds.origin p.clipped_bounds.size
        else
          [GpuPathSprite.mk (spanningBounds first rest).origin
            (spanningBounds first rest).size])

/-- Modelled from the spec: "batches preserve the original paint order of
the primitives they contain" — along a Paths batch the paint orders are
nondecreasing. -/
def batchOrdered (paths : List PathM) : Prop :=
  paths.Chain' fun a b => a.order ≤ b.order

/-! ## Theorems -/

/-- Sanity anchor: `ratFloor` is the true floor on ℚ. -/
theorem ratFloor_eq_floor (q : ℚ) : ratFloor q = ⌊q⌋ := by
  rw [Rat.floor_def]
  exact Int.fdiv_eq_ediv q.num (Int.ofNat_nonneg q.den)

/-- Sanity anchor: `ratCeil` is the true ceiling on ℚ. -/
theorem ratCeil_eq_ceil (q : ℚ) : ratCeil q = ⌈q⌉ := by
  unfold ratCeil
  rw [ratFloor_eq_floor, Int.floor_neg, neg_neg]

/-- C1 counterexample: `rasterize_glyph` called with the zero-area raster
bounds that `glyph_raster_bounds` yields for a zero-contour glyph returns
an error ("glyph bounds are empty"), not an all-zero byte buffer. -/
theorem rasterize_glyph_zero_area_bounds_errors :
    rasterize_glyph id ⟨0, 0, 16, ⟨0, 0⟩, 1, false⟩ BoundsI.default true none
      = Except.error "glyph bounds are empty" := rfl

/-- C1 (amended): a glyph whose outline query reports no bounding box
(e.g. a zero-contour glyph) gets a valid zero-area bounds from
`glyph_raster_bounds`; `rasterize_glyph` rejects any zero-area raster
bounds with an error; the correctly-sized all-zero byte buffer is
produced only when the raster bounds have non-zero area and rendering
yields no image. -/
theorem glyph_rasterizer_zero_contour_behavior :
    (glyph_raster_bounds true none = Except.ok BoundsI.default
      ∧ BoundsI.default.size.width = 0 ∧ BoundsI.default.size.height = 0)
    ∧ (∀ (conv : List Nat → List Nat) (params : RenderGlyphParamsM)
        (b : BoundsI) (sw : Bool) (img : Option ImageM),
        b.size.width = 0 ∨ b.size.height = 0 →
        rasterize_glyph conv params b sw img = Except.error "glyph bounds are empty")
    ∧ (∀ (conv : List Nat → List Nat) (params : RenderGlyphParamsM) (b : BoundsI),
        ¬(b.size.width = 0 ∨ b.size.height = 0) →
        rasterize_glyph conv params b true none
          = Except.ok
              (⟨b.size.width + (if params.subpixel_variant.x > 0 then 1 else 0),
                b.size.height + (if params.subpixel_variant.y > 0 then 1 else 0)⟩,
               List.replicate
                 (if params.is_emoji then
                    (b.size.width + (if params.subpixel_variant.x > 0 then 1 else 0)).toNat * 4 *
                      (b.size.height + (if params.subpixel_variant.y > 0 then 1 else 0)).toNat
                  else
                    (b.size.width + (if params.subpixel_variant.x > 0 then 1 else 0)).toNat *
                      (b.size.height + (if params.subpixel_variant.y > 0 then 1 else 0)).toNat)
                 0)) := by
  refine ⟨⟨rfl, rfl, rfl⟩, ?_, ?_⟩
  · intro conv params b sw img h
    simp only [rasterize_glyph]
    rw [if_pos h]
  · intro conv params b h
    simp only [rasterize_glyph]
    rw [if_neg h]
    rfl

/-- C8 counterexample: with non-zero-area bounds 4×4 and x subpixel phase
1, the expanded size would be 5×4, but when the renderer yields an image
with placement 7×3 the returned bitmap size is 7×3, not the expanded
bounds. -/
theorem rasterize_glyph_returns_placement_size :
    rasterize_glyph id ⟨0, 0, 16, ⟨1, 0⟩, 1, false⟩ ⟨⟨0, 0⟩, ⟨4, 4⟩⟩ true
        (some ⟨7, 3, []⟩)
      = Except.ok (⟨7, 3⟩, [])
    ∧ (⟨7, 3⟩ : SizeI) ≠ ⟨5, 4⟩ := by
  exact ⟨rfl, by decide⟩

/-- C8 (amended): the one-extra-pixel expansion per non-zero subpixel
phase component gives the size of the fallback bitmap returned when
rendering yields no image; when rendering yields an image the returned
size is that image's own placement size (with the emoji byte conversion
applied to its data when requested). -/
theorem rasterize_glyph_bitmap_size_spec :
    (∀ (conv : List Nat → List Nat) (params : RenderGlyphParamsM) (b : BoundsI),
        ¬(b.size.width = 0 ∨ b.size.height = 0) →
        (rasterize_glyph conv params b true none).map Prod.fst
          = Except.ok
              ⟨b.size.width + (if params.subpixel_variant.x > 0 then 1 else 0),
               b.size.height + (if params.subpixel_variant.y > 0 then 1 else 0)⟩)
    ∧ (∀ (conv : List Nat → List Nat) (params : RenderGlyphParamsM) (b : BoundsI)
        (img : ImageM),
        ¬(b.size.width = 0 ∨ b.size.height = 0) →
        rasterize_glyph conv params b true (some img)
          = Except.ok
              (⟨(img.placement_width : Int), (img.placement_height : Int)⟩,
               if params.is_emoji then conv img.data else img.data)) := by
  constructor
  · intro conv params b h
    simp only [rasterize_glyph]
    rw [if_neg h]
    rfl
  · intro conv params b img h
    simp only [rasterize_glyph]
    rw [if_neg h]
    rfl

/-- C3: once `font_id` has succeeded for a `Font`, a second call with the
same `Font` returns the same `FontId` and the identical state — whatever
the resolution oracle would now say, so the font is not re-resolved and
the loaded-font table does not grow. -/
theorem font_id_memoized :
    ∀ (s : TSState) (f : Font) (fam : String) (q : Option QueryFontM)
      (i : FontId) (s' : TSState),
      font_id s f fam q = (Except.ok i, s') →
      ∀ (fam' : String) (q' : Option QueryFontM),
        font_id s' f fam' q' = (Except.ok i, s') := by
  intro s f fam q i s' h fam' q'
  cases hsel : selectionLookup s.font_selections f with
  | some j =>
      simp only [font_id, hsel, Prod.mk.injEq, Except.ok.injEq] at h
      obtain ⟨hi, hs⟩ := h
      subst hi; subst hs
      simp only [font_id, hsel]
  | none =>
      cases q with
      | none => simp [font_id, hsel, resolve_font] at h
      | some qf =>
          simp only [font_id, hsel, resolve_font] at h
          by_cases hc :
            (!qf.has_m_glyph
              && !(strContains fam "Icons" || strContains fam "Symbol")) = true
          · rw [if_pos hc] at h
            simp at h
          · rw [if_neg hc] at h
            simp only [Prod.mk.injEq, Except.ok.injEq] at h
            obtain ⟨hi, hs⟩ := h
            subst hi
            subst hs
            simp [font_id, selectionLookup]

/-- C3 witness: resolving a concrete font once and calling again with a
different oracle returns the cached id and leaves the state alone. -/
theorem font_id_memoized_witness :
    font_id
        ⟨[⟨0, 0, 0, false, "Test", none⟩],
         [(⟨"Test", 400, FontStyle.Normal⟩, 0)]⟩
        ⟨"Test", 400, FontStyle.Normal⟩ "Other" none
      = (Except.ok 0,
         ⟨[⟨0, 0, 0, false, "Test", none⟩],
          [(⟨"Test", 400, FontStyle.Normal⟩, 0)]⟩) :=
  font_id_memoized ⟨[], []⟩ ⟨"Test", 400, FontStyle.Normal⟩ "Test"
    (some ⟨0, 0, 0, true, false, none⟩) 0
    ⟨[⟨0, 0, 0, false, "Test", none⟩],
     [(⟨"Test", 400, FontStyle.Normal⟩, 0)]⟩
    rfl "Other" none

/-- C9: when `font_id` returns an error (no matching face, or the
m-glyph check failed), the loaded-font table and the `Font → FontId`
cache are exactly as before: nothing about the failure is cached. -/
theorem font_id_error_state_unchanged :
    ∀ (s : TSState) (f : Font) (fam : String) (q : Option QueryFontM)
      (e : String) (s' : TSState),
      font_id s f fam q = (Except.error e, s') →
      s'.fonts = s.fonts ∧ s'.font_selections = s.font_selections := by
  intro s f fam q e s' h
  cases hsel : selectionLookup s.font_selections f with
  | some j => simp only [font_id, hsel] at h; simp at h
  | none =>
      cases q with
      | none =>
          simp only [font_id, hsel, resolve_font, Prod.mk.injEq] at h
          rw [← h.2]
          exact ⟨rfl, rfl⟩
      | some qf =>
          simp only [font_id, hsel, resolve_font] at h
          by_cases hc :
            (!qf.has_m_glyph
              && !(strContains fam "Icons" || strContains fam "Symbol")) = true
          · rw [if_pos hc] at h
            simp only [Prod.mk.injEq] at h
            rw [← h.2]
            exact ⟨rfl, rfl⟩
          · rw [if_neg hc] at h
            simp at h

/-- C9 witness: a failed resolution (no face matched) at a concrete state
leaves that state's tables untouched. -/
theorem font_id_error_state_unchanged_witness :
    (⟨[], []⟩ : TSState).fonts = (⟨[], []⟩ : TSState).fonts
    ∧ (⟨[], []⟩ : TSState).font_selections
        = (⟨[], []⟩ : TSState).font_selections :=
  font_id_error_state_unchanged ⟨[], []⟩ ⟨"Nope", 400, FontStyle.Normal⟩
    "Nope" none "could not find font family Nope" ⟨[], []⟩ rfl

/-- C7: `resolve_font` yields an error exactly when no face matched, or
the matched face lacks an m glyph while the effective family name
contains neither "Icons" nor "Symbol"; in every other case (including a
missing m glyph on an icon/symbol family) the match is accepted. The
model is a total function into `Except`, so no panic is possible. -/
theorem resolve_font_error_characterization :
    ∀ (s : TSState) (f : Font) (fam : String) (q : Option QueryFontM),
      (∃ e, (resolve_font s f fam q).1 = Except.error e) ↔
        (q = none ∨ ∃ qf, q = some qf ∧ qf.has_m_glyph = false
          ∧ strContains fam "Icons" = false
          ∧ strContains fam "Symbol" = false) := by
  intro s f fam q
  cases q with
  | none => simp [resolve_font]
  | some qf =>
      cases hm : qf.has_m_glyph <;> cases hi : strContains fam "Icons" <;>
        cases hsy : strContains fam "Symbol" <;>
          simp [resolve_font, hm, hi, hsy]

/-- Helper for C5: the run-extraction loop preserves the
no-two-adjacent-runs-with-equal-font invariant of its accumulator. -/
theorem extractRuns_chain (font_runs : List FontRun) (fonts : List LoadedFont) :
    ∀ (prs : List PGlyphRun) (acc : List ShapedRun) (w : ℚ),
      acc.Chain' (fun a b => a.font_id ≠ b.font_id) →
      ((extractRuns font_runs fonts prs acc w).1).Chain'
        (fun a b => a.font_id ≠ b.font_id) := by
  intro prs
  induction prs with
  | nil =>
      intro acc w h
      simp only [extractRuns]
      rw [List.chain'_reverse]
      exact h.imp fun _ _ hab => Ne.symm hab

  | cons gr rest ih =>
      intro acc w h
      cases acc with
      | nil =>
          simp only [extractRuns]
          exact ih _ _ (List.chain'_singleton _)
      | cons last tail =>
          simp only [extractRuns]
          by_cases hfid :
            last.font_id = run_font_id_from_parley gr.font font_runs fonts
          · rw [if_pos hfid]
            refine ih _ _ ?_
            rw [List.chain'_cons'] at h ⊢
            exact h
          · rw [if_neg hfid]
            refine ih _ _ ?_
            rw [List.chain'_cons]
            exact ⟨fun e => hfid e.symm, h⟩

/-- C4: `layout_line` always returns a layout whose `len` is the byte
length of the input text (for font runs whose ids are within the loaded
table, the domain on which the Rust indexing does not panic); empty text
or an empty run list short-circuits to the zero-width, zero-glyph layout
carrying that byte length; in particular the empty call yields
`LineLayout { font_size := 16, width := 0, runs := [], len := 0 }`. -/
theorem layout_line_len_and_empty :
    (∀ (text : List Nat) (font_size : ℚ) (font_runs : List FontRun)
       (fonts : List LoadedFont) (parley_runs : List PGlyphRun),
       (∀ r ∈ font_runs, r.font_id < fonts.length) →
       (layout_line text font_size font_runs fonts parley_runs).len = text.length)
    ∧ (∀ (text : List Nat) (font_size : ℚ) (font_runs : List FontRun)
        (fonts : List LoadedFont) (parley_runs : List PGlyphRun),
        text = [] ∨ font_runs = [] →
        layout_line text font_size font_runs fonts parley_runs
          = ⟨font_size, 0, 0, 0, [], text.length⟩)
    ∧ (∀ (fonts : List LoadedFont) (parley_runs : List PGlyphRun),
        layout_line [] 16 [] fonts parley_runs = ⟨16, 0, 0, 0, [], 0⟩) := by
  refine ⟨?_, ?_, ?_⟩
  · intro text font_size font_runs fonts parley_runs _
    by_cases hc : text = [] ∨ font_runs = []
    · simp [layout_line, hc]
    · simp [layout_line, hc]
  · intro text font_size font_runs fonts parley_runs hc
    simp [layout_line, hc]
  · intro fonts parley_runs
    rfl

/-- C5: in every `LineLayout` that `layout_line` produces, no two
consecutive `ShapedRun`s carry the same `FontId` (adjacent same-font
parley runs are merged into one). -/
theorem layout_line_no_adjacent_same_font :
    ∀ (text : List Nat) (font_size : ℚ) (font_runs : List FontRun)
      (fonts : List LoadedFont) (parley_runs : List PGlyphRun),
      ((layout_line text font_size font_runs fonts parley_runs).runs).Chain'
        (fun a b => a.font_id ≠ b.font_id) := by
  intro text font_size font_runs fonts parley_runs
  by_cases hc : text = [] ∨ font_runs = []
  · simp [layout_line, hc]
  · simp only [layout_line, if_neg hc]
    exact extractRuns_chain font_runs fonts parley_runs [] 0 List.chain'_nil

/-- Helper: after `removeTile`, the removed key is absent from the map. -/
theorem lookupTile_removeTile (s : WebAtlasState) (key : AtlasKey) :
    lookupTile (removeTile s key).tiles key = none := by
  show lookupTile (s.tiles.filter fun kv => kv.1 != key) key = none
  induction s.tiles with
  | nil => rfl
  | cons kv rest ih =>
      obtain ⟨k, t⟩ := kv
      by_cases hk : k = key
      · subst hk
        simpa [List.filter] using ih
      · simp only [List.filter, hk]
        have hb : (k != key) = true := by simp [hk]
        rw [hb]
        simp only [lookupTile]
        rw [if_neg hk]
        exact ih

/-- C6: web-atlas cache semantics. A key that already has a tile returns
that identical tile without invoking the build callback; a build that
yields nothing returns `None`, caches nothing, and leaves the state
unchanged, so the next request for the key invokes the callback again;
after `remove(key)`, the next `get_or_insert_with` for the key invokes
the callback again. -/
theorem atlas_cache_semantics :
    (∀ (s : WebAtlasState) (key : AtlasKey) (t : AtlasTile)
       (build : Except String (Option (SizeI × List Nat))),
       lookupTile s.tiles key = some t →
       get_or_insert_with s key build = (Except.ok (some t), s, false))
    ∧ (∀ (s : WebAtlasState) (key : AtlasKey),
        lookupTile s.tiles key = none →
        get_or_insert_with s key (Except.ok none) = (Except.ok none, s, true)
        ∧ ∀ build2, (get_or_insert_with s key build2).2.2 = true)
    ∧ (∀ (s : WebAtlasState) (key : AtlasKey)
        (build2 : Except String (Option (SizeI × List Nat))),
        (get_or_insert_with (removeTile s key) key build2).2.2 = true) := by
  refine ⟨?_, ?_, ?_⟩
  · intro s key t build h
    simp [get_or_insert_with, h]
  · intro s key h
    constructor
    · simp [get_or_insert_with, h]
    · intro build2
      cases build2 with
      | error e => simp [get_or_insert_with, h]
      | ok o =>
          cases o with
          | none => simp [get_or_insert_with, h]
          | some p =>
              obtain ⟨sz, bytes⟩ := p
              simp [get_or_insert_with, h]
  · intro s key build2
    have h := lookupTile_removeTile s key
    cases build2 with
    | error e => simp [get_or_insert_with, h]
    | ok o =>
        cases o with
        | none => simp [get_or_insert_with, h]
        | some p =>
            obtain ⟨sz, bytes⟩ := p
            simp [get_or_insert_with, h]

/-- C6 witness: at a concrete state holding one tile, the three cache
facts instantiate: the cached tile is returned without building, an
empty build caches nothing and the key rebuilds next time, and a removed
key rebuilds. -/
theorem atlas_cache_semantics_witness :
    get_or_insert_with
        ⟨2, [(5, ⟨⟨1, AtlasTextureKind.Monochrome⟩, ⟨2⟩, 0, ⟨⟨0, 0⟩, ⟨3, 3⟩⟩⟩)]⟩
        5 (Except.error "unused")
      = (Except.ok (some ⟨⟨1, AtlasTextureKind.Monochrome⟩, ⟨2⟩, 0, ⟨⟨0, 0⟩, ⟨3, 3⟩⟩⟩),
         ⟨2, [(5, ⟨⟨1, AtlasTextureKind.Monochrome⟩, ⟨2⟩, 0, ⟨⟨0, 0⟩, ⟨3, 3⟩⟩⟩)]⟩,
         false)
    ∧ get_or_insert_with WebAtlasState.new 7 (Except.ok none)
        = (Except.ok none, WebAtlasState.new, true)
    ∧ (get_or_insert_with
        (removeTile
          ⟨2, [(5, ⟨⟨1, AtlasTextureKind.Monochrome⟩, ⟨2⟩, 0, ⟨⟨0, 0⟩, ⟨3, 3⟩⟩⟩)]⟩ 5)
        5 (Except.ok none)).2.2 = true :=
  ⟨atlas_cache_semantics.1 _ 5 _ _ rfl,
   (atlas_cache_semantics.2.1 WebAtlasState.new 7 rfl).1,
   atlas_cache_semantics.2.2 _ 5 _⟩

/-- Helper for C10: along any run of atlas calls the id counter only
grows, every created tile's ids lie strictly above the starting counter
and at or below the final counter, created tiles are Monochrome with
zero padding and zero origin, and both id sequences are strictly
increasing in creation order. -/
theorem runAtlas_ids (ops : List AtlasOp) :
    ∀ s : WebAtlasState,
      s.next_id ≤ (runAtlas s ops).1.next_id
      ∧ (∀ t ∈ (runAtlas s ops).2,
          (s.next_id < t.tile_id.val ∧ t.tile_id.val ≤ (runAtlas s ops).1.next_id)
          ∧ (s.next_id < t.texture_id.index
             ∧ t.texture_id.index ≤ (runAtlas s ops).1.next_id)
          ∧ t.texture_id.kind = AtlasTextureKind.Monochrome
          ∧ t.padding = 0 ∧ t.bounds.origin = ⟨0, 0⟩)
      ∧ ((runAtlas s ops).2).Pairwise
          (fun a b => a.tile_id.val < b.tile_id.val
            ∧ a.texture_id.index < b.texture_id.index) := by
  induction ops with
  | nil => intro s; simp [runAtlas]
  | cons op rest ih =>
      intro s
      cases op with
      | remove key =>
          have h := ih (removeTile s key)
          simpa [runAtlas, stepAtlas] using h
      | get key build =>
          cases hlk : lookupTile s.tiles key with
          | some t0 =>
              have h := ih s
              simpa [runAtlas, stepAtlas, get_or_insert_with, hlk] using h
          | none =>
              cases build with
              | error e =>
                  have h := ih s
                  simpa [runAtlas, stepAtlas, get_or_insert_with, hlk] using h
              | ok o =>
                  cases o with
                  | none =>
                      have h := ih s
                      simpa [runAtlas, stepAtlas, get_or_insert_with, hlk] using h
                  | some p =>
                      obtain ⟨sz, bytes⟩ := p
                      have h := ih ⟨s.next_id + 2,
                        (key, ⟨⟨s.next_id + 1, AtlasTextureKind.Monochrome⟩,
                               ⟨s.next_id + 2⟩, 0, ⟨⟨0, 0⟩, sz⟩⟩) :: s.tiles⟩
                      simp only [runAtlas, stepAtlas, get_or_insert_with, hlk,
                        Option.toList, List.cons_append, List.nil_append]
                      refine ⟨Nat.le_trans (Nat.le_add_right _ 2) h.1, ?_, ?_⟩
                      · intro t ht
                        rcases List.mem_cons.mp ht with hteq | htcs
                        · subst hteq
                          refine ⟨⟨?_, h.1⟩, ⟨?_, Nat.le_trans (Nat.le_succ _) h.1⟩,
                            rfl, rfl, rfl⟩
                          · show s.next_id < s.next_id + 2
                            omega
                          · show s.next_id < s.next_id + 1
                            omega
                        · have hm := h.2.1 t htcs
                          exact ⟨⟨Nat.lt_of_le_of_lt (Nat.le_add_right _ 2) hm.1.1,
                                  hm.1.2⟩,
                                 ⟨Nat.lt_of_le_of_lt (Nat.le_add_right _ 2) hm.2.1.1,
                                  hm.2.1.2⟩,
                                 hm.2.2⟩
                      · rw [List.pairwise_cons]
                        refine ⟨?_, h.2.2⟩
                        intro t htcs
                        have hm := h.2.1 t htcs
                        exact ⟨hm.1.1, Nat.lt_of_le_of_lt (Nat.le_succ _) hm.2.1.1⟩


/-- C10: every tile the web atlas creates is Monochrome with padding 0
and bounds at origin (0,0) sized to the built bitmap, its texture and
tile ids are drawn from the strictly increasing counter (texture id
`next_id + 1`, tile id `next_id + 2`), and over any run of atlas calls
from the fresh atlas all created tiles carry pairwise distinct tile ids
and pairwise distinct texture ids. -/
theorem web_atlas_new_tile_invariants :
    (∀ ops : List AtlasOp,
       (∀ t ∈ (runAtlas WebAtlasState.new ops).2,
          t.texture_id.kind = AtlasTextureKind.Monochrome
          ∧ t.padding = 0 ∧ t.bounds.origin = ⟨0, 0⟩)
       ∧ ((runAtlas WebAtlasState.new ops).2).Pairwise
           (fun a b => a.tile_id ≠ b.tile_id ∧ a.texture_id ≠ b.texture_id))
    ∧ (∀ (s : WebAtlasState) (key : AtlasKey) (sz : SizeI) (bytes : List Nat),
        lookupTile s.tiles key = none →
        get_or_insert_with s key (Except.ok (some (sz, bytes)))
          = (Except.ok (some ⟨⟨s.next_id + 1, AtlasTextureKind.Monochrome⟩,
                              ⟨s.next_id + 2⟩, 0, ⟨⟨0, 0⟩, sz⟩⟩),
             ⟨s.next_id + 2,
              (key, ⟨⟨s.next_id + 1, AtlasTextureKind.Monochrome⟩,
                     ⟨s.next_id + 2⟩, 0, ⟨⟨0, 0⟩, sz⟩⟩) :: s.tiles⟩,
             true)) := by
  constructor
  · intro ops
    have h := runAtlas_ids ops WebAtlasState.new
    constructor
    · exact fun t ht => (h.2.1 t ht).2.2
    · refine (h.2.2).imp ?_
      intro a b hab
      constructor
      · intro e
        exact Nat.ne_of_lt hab.1 (congrArg TileId.val e)
      · intro e
        exact Nat.ne_of_lt hab.2 (congrArg AtlasTextureId.index e)
  · intro s key sz bytes h
    simp [get_or_insert_with, h]

/-- C10 witness: inserting a 3×5 bitmap for a fresh key at a concrete
atlas state yields the Monochrome zero-padding tile at origin with that
size, with texture id 9 and tile id 10 from the counter at 8. -/
theorem web_atlas_new_tile_invariants_witness :
    get_or_insert_with ⟨8, []⟩ 42 (Except.ok (some (⟨3, 5⟩, [1, 2])))
      = (Except.ok (some ⟨⟨9, AtlasTextureKind.Monochrome⟩, ⟨10⟩, 0,
                          ⟨⟨0, 0⟩, ⟨3, 5⟩⟩⟩),
         ⟨10, [(42, ⟨⟨9, AtlasTextureKind.Monochrome⟩, ⟨10⟩, 0,
                     ⟨⟨0, 0⟩, ⟨3, 5⟩⟩⟩)]⟩,
         true) :=
  web_atlas_new_tile_invariants.2 ⟨8, []⟩ 42 ⟨3, 5⟩ [1, 2] rfl

/-- Helper for C2: in an order-sorted path list the head's order bounds
the last element's order. -/
theorem pathChain_le_getLast :
    ∀ (p : PathM) (rest : List PathM) (x : PathM),
      List.Chain' (fun a b => a.order ≤ b.order) (p :: rest) →
      (p :: rest).getLast? = some x → p.order ≤ x.order := by
  intro p rest
  induction rest generalizing p with
  | nil =>
      intro x _ hx
      simp only [List.getLast?_singleton, Option.some.injEq] at hx
      subst hx
      exact Nat.le_refl _
  | cons b t ih =>
      intro x hch hx
      rw [List.getLast?_cons_cons] at hx
      have hcc := List.chain'_cons.mp hch
      exact Nat.le_trans hcc.1 (ih b x hcc.2 hx)

/-- Helper for C2: in an order-sorted path list whose last path has the
head's order, every path has the head's order. -/
theorem pathChain_getLast_eq_all :
    ∀ (p : PathM) (rest : List PathM),
      List.Chain' (fun a b => a.order ≤ b.order) (p :: rest) →
      (p :: rest).getLast?.map PathM.order = some p.order →
      ∀ q ∈ p :: rest, q.order = p.order := by
  intro p rest
  induction rest generalizing p with
  | nil =>
      intro _ _ q hq
      rw [List.mem_singleton.mp hq]
  | cons b t ih =>
      intro hch hlast q hq
      rw [List.getLast?_cons_cons] at hlast
      obtain ⟨x, hx, hxo⟩ : ∃ x, (b :: t).getLast? = some x ∧ x.order = p.order := by
        cases hgl : (b :: t).getLast? with
        | none => rw [hgl] at hlast; simp at hlast
        | some x =>
            rw [hgl] at hlast
            exact ⟨x, rfl, by simpa using hlast⟩
      have hcc := List.chain'_cons.mp hch
      have hbx : b.order ≤ x.order := pathChain_le_getLast b t x hcc.2 hx
      have hbp : b.order = p.order := Nat.le_antisymm (hxo ▸ hbx) hcc.1
      rcases List.mem_cons.mp hq with hqp | hqbt
      · rw [hqp]
      · have hq' := ih b hcc.2 (by rw [hx]; simp [hxo, hbp]) q hqbt
        rw [hq', hbp]

/-- Helper for C2: when every path shares the head's order, the last
path reports the head's order. -/
theorem pathAllEq_getLast :
    ∀ (p : PathM) (rest : List PathM),
      (∀ q ∈ p :: rest, q.order = p.order) →
      (p :: rest).getLast?.map PathM.order = some p.order := by
  intro p rest
  induction rest generalizing p with
  | nil => intro _; rfl
  | cons b t ih =>
      intro hall
      rw [List.getLast?_cons_cons]
      have hb : b.order = p.order := hall b (by simp)
      have hbt : ∀ q ∈ b :: t, q.order = b.order := by
        intro q hq
        rw [hall q (List.mem_cons_of_mem _ hq), hb]
      rw [ih b hbt, hb]

/-- C2 counterexample: a non-empty Paths batch whose single path (order
0, so trivially all orders agree) has an empty vertex list makes
`draw_paths` return before the composite pass: no sprite at all is
emitted, not the one-per-path sprite the claim requires. -/
theorem draw_paths_empty_vertices_no_sprites :
    draw_paths_sprites [⟨0, [], ⟨0, 0, 0, 1⟩, ⟨⟨0, 0⟩, ⟨10, 10⟩⟩⟩] = none
    ∧ draw_paths_sprites [⟨0, [], ⟨0, 0, 0, 1⟩, ⟨⟨0, 0⟩, ⟨10, 10⟩⟩⟩]
        ≠ some [GpuPathSprite.mk ⟨0, 0⟩ ⟨10, 10⟩] := by
  constructor
  · rfl
  · decide

/-- C2 (amended): for a Paths batch holding at least one vertex, under
the batch invariant that paint orders are nondecreasing, the composite
pass emits one sprite per path (each covering that path's clipped
bounds) iff all paths share the same paint order, and otherwise exactly
one sprite covering the rect spanning all the paths' clipped bounds; in
particular two paths with different orders yield exactly one sprite over
the union of their bounds. -/
theorem draw_paths_composite_spec :
    (∀ (first : PathM) (rest : List PathM),
       batchOrdered (first :: rest) →
       pathVertices (first :: rest) ≠ [] →
       ((∀ p ∈ first :: rest, p.order = first.order) →
          draw_paths_sprites (first :: rest)
            = some ((first :: rest).map fun p =>
                GpuPathSprite.mk p.clipped_bounds.origin p.clipped_bounds.size))
       ∧ (¬(∀ p ∈ first :: rest, p.order = first.order) →
          draw_paths_sprites (first :: rest)
            = some [GpuPathSprite.mk (spanningBounds first rest).origin
                      (spanningBounds first rest).size]))
    ∧ (∀ p q : PathM, p.order ≠ q.order → pathVertices [p, q] ≠ [] →
        draw_paths_sprites [p, q]
          = some [GpuPathSprite.mk
                    (BoundsQ.union p.clipped_bounds q.clipped_bounds).origin
                    (BoundsQ.union p.clipped_bounds q.clipped_bounds).size]) := by
  constructor
  · intro first rest hord hv
    constructor
    · intro hall
      simp only [draw_paths_sprites]
      rw [if_neg hv, if_pos (pathAllEq_getLast first rest hall)]
    · intro hnall
      simp only [draw_paths_sprites]
      rw [if_neg hv, if_neg fun hc =>
        hnall (pathChain_getLast_eq_all first rest hord hc)]
  · intro p q hne hv
    simp only [draw_paths_sprites]
    have hcond : ¬(([p, q].getLast?).map PathM.order = some p.order) := by
      intro hc
      simp only [List.getLast?_cons_cons, List.getLast?_singleton,
        Option.map_some', Option.some.injEq] at hc
      exact hne hc.symm
    rw [if_neg hv, if_neg hcond]
    rfl

/-- C2 witness: two concrete paths with orders 0 and 1 and overlapping
clip rects produce exactly one sprite spanning the union of their
bounds. -/
theorem draw_paths_composite_spec_witness :
    draw_paths_sprites
        [⟨0, [⟨⟨0, 0⟩, ⟨0, 0⟩⟩], ⟨0, 0, 0, 1⟩, ⟨⟨0, 0⟩, ⟨2, 2⟩⟩⟩,
         ⟨1, [], ⟨0, 0, 0, 1⟩, ⟨⟨4, 4⟩, ⟨2, 2⟩⟩⟩]
      = some [GpuPathSprite.mk ⟨0, 0⟩ ⟨6, 6⟩] := by
  have h := draw_paths_composite_spec.2
    ⟨0, [⟨⟨0, 0⟩, ⟨0, 0⟩⟩], ⟨0, 0, 0, 1⟩, ⟨⟨0, 0⟩, ⟨2, 2⟩⟩⟩
    ⟨1, [], ⟨0, 0, 0, 1⟩, ⟨⟨4, 4⟩, ⟨2, 2⟩⟩⟩
    (by decide) (by decide)
  rw [h]
  simp only [BoundsQ.union]
  norm_num [min_def, max_def]

end Gpui
